import Mathlib

/-!
Verification of the odds-arbitrage core of the ESX_ARB repository.

The numerical core lives in two Python modules:

* `Arbitrage/arb_nfl_A.py` — the strict "combined payout" detector
  (`detect_arbitrage`, lines 87–95): flags `arb_away` when
  `1/yes_prob + 1/away_prob < 1 + tolerance` with `tolerance = 0.02`
  hard-coded, and reports `arb_profit_away = 1 - (1/yes_prob + 1/away_prob)`
  (symmetrically `arb_home` on `no_prob`/`home_prob`).

* `Arbitrage/arb_nfl_A_v2.py` — the single-sided evaluator
  (`devig`, `kelly_fraction`, `simulate_trade`): devigs the Pinnacle pair,
  compares the fee-inflated Kalshi ask against the devigged probability on
  each side, sizes flagged trades with a fractional-Kelly formula, and logs
  at most one trade per merged event (the candidate with maximal edge,
  Python `max` keeping the first maximal element).

Prices are embedded as exact rationals `ℚ`.  Python code that can raise
(`ZeroDivisionError` on float division by zero) is embedded in `Option`,
with `none` standing for the raised exception.
-/

namespace ArbV1

/-- Hard-coded acceptance tolerance of `detect_arbitrage`
(`tolerance = 0.02`, arb_nfl_A.py line 88). -/
def tolerance : ℚ := 2/100

/-- Column `arb_away` of `detect_arbitrage` (arb_nfl_A.py line 89):
`(1 / merged["yes_prob"] + 1 / merged["away_prob"]) < 1 + tolerance`. -/
def arb_away (yes_prob away_prob : ℚ) : Prop :=
  1 / yes_prob + 1 / away_prob < 1 + tolerance

/-- Column `arb_home` of `detect_arbitrage` (arb_nfl_A.py line 90):
`(1 / merged["no_prob"] + 1 / merged["home_prob"]) < 1 + tolerance`. -/
def arb_home (no_prob home_prob : ℚ) : Prop :=
  1 / no_prob + 1 / home_prob < 1 + tolerance

/-- Column `arb_profit_away` (arb_nfl_A.py line 94):
`1 - (1 / merged["yes_prob"] + 1 / merged["away_prob"])`. -/
def arb_profit_away (yes_prob away_prob : ℚ) : ℚ :=
  1 - (1 / yes_prob + 1 / away_prob)

/-- Column `arb_profit_home` (arb_nfl_A.py line 95):
`1 - (1 / merged["no_prob"] + 1 / merged["home_prob"])`. -/
def arb_profit_home (no_prob home_prob : ℚ) : ℚ :=
  1 - (1 / no_prob + 1 / home_prob)

instance (p q : ℚ) : Decidable (arb_away p q) := by
  unfold arb_away; infer_instance

end ArbV1

namespace ArbV2

/-- Module-level constant `kalshi_fee = 0.003` (arb_nfl_A_v2.py line 20). -/
def kalshi_fee : ℚ := 3/1000

/-- Module-level constant `bankroll = 10_000` (arb_nfl_A_v2.py line 21). -/
def bankroll : ℚ := 10000

/-- Module-level constant `fractional_kelly = 0.2` (arb_nfl_A_v2.py line 22). -/
def fractional_kelly : ℚ := 1/5

/-- Function `devig` (arb_nfl_A_v2.py lines 64–66):
`r = home_prob + away_prob; return home_prob / r, away_prob / r`.
The function performs no validation; the only failure mode of the Python
code is the division when `r == 0` (`ZeroDivisionError`), embedded as
`none`. -/
def devig (home_prob away_prob : ℚ) : Option (ℚ × ℚ) :=
  if home_prob + away_prob = 0 then none
  else some (home_prob / (home_prob + away_prob), away_prob / (home_prob + away_prob))

/-- Function `kelly_fraction` (arb_nfl_A_v2.py lines 69–71):
`kelly = (kalshi_odds * pinnacle_odds - 1) / (kalshi_odds - 1);
return max(0, shrinkage * kelly)`.
Note the second argument receives the raw Kalshi ask price at both call
sites (lines 119 and 137), not a decimal-odds value.  The division when
`kalshi_odds == 1` raises `ZeroDivisionError`, embedded as `none`. -/
def kelly_fraction (pinnacle_odds kalshi_odds shrinkage : ℚ) : Option ℚ :=
  if kalshi_odds - 1 = 0 then none
  else some (max 0 (shrinkage * ((kalshi_odds * pinnacle_odds - 1) / (kalshi_odds - 1))))

/-- Modelled from the spec (section 4.3 Position sizing), for comparison with
the code's `kelly_fraction`: the price is "converted internally to a
decimal-odds-equivalent `b = 1/p_price`", `kelly = (b * p_true - 1) / (b - 1)`,
`stake_fraction = max(0, shrinkage * kelly)`, with the degenerate case
`b == 1` guarded as no-bet. -/
def kellySpec (p_true p_price shrinkage : ℚ) : ℚ :=
  if 1 / p_price = 1 then 0
  else max 0 (shrinkage * ((1 / p_price * p_true - 1) / (1 / p_price - 1)))

/-- The two sides a logged trade can take (`simulate_trade` lines 124 and 142:
"YES Kalshi / Away Pinnacle" and "NO Kalshi / Home Pinnacle"). -/
inductive Side where
  | yes
  | no
deriving DecidableEq

/-- One record of the `trade_log` of `simulate_trade` (lines 122–131 and
140–149).  The constant `event` string is omitted; the remaining fields are
the dict keys `kalshi_price`, `pinnacle_prob_devig`, `edge`,
`kelly_fraction`, `bet_size`, `profit`. -/
structure Trade where
  side : Side
  kalshi_price : ℚ
  pinnacle_prob_devig : ℚ
  edge : ℚ
  kelly_fraction : ℚ
  bet_size : ℚ
  profit : ℚ
deriving DecidableEq

/-- One side-evaluation block of `simulate_trade` (lines 115–131 for the YES
side, lines 133–149 for the NO side; the two blocks are literally identical
up to which ask/devig pair they read):
`cost = ask * (1 + kalshi_fee); if cost < fair: edge = fair - cost;
frac = kelly_fraction(fair, ask, fractional_kelly); bet_size = frac * bankroll;
profit = bet_size * edge; trades.append({...})`.
Outer `none` is a propagated `ZeroDivisionError` from `kelly_fraction`;
`some none` means the side was not appended. -/
def evalSide (s : Side) (fair ask : ℚ) : Option (Option Trade) :=
  if ask * (1 + kalshi_fee) < fair then
    match kelly_fraction fair ask fractional_kelly with
    | none => none
    | some frac =>
        some (some ⟨s, ask * (1 + kalshi_fee), fair, fair - ask * (1 + kalshi_fee),
                    frac, frac * bankroll,
                    frac * bankroll * (fair - ask * (1 + kalshi_fee))⟩)
  else some none

/-- Python `max(trades, key=lambda x: x["edge"])` (line 151): scan left to
right, replacing the current best only on a strictly larger key, so the
first maximal element wins ties. -/
def pyMaxByEdge (t : Trade) (ts : List Trade) : Trade :=
  ts.foldl (fun best x => if best.edge < x.edge then x else best) t

/-- Lines 150–152 of `simulate_trade`: `if trades: trade_log.append(
max(trades, key=lambda x: x["edge"]))` — the per-event contribution to the
trade log (empty, or the single best candidate). -/
def pickBest : List Trade → List Trade
  | [] => []
  | t :: ts => [pyMaxByEdge t ts]

/-- The body of the per-row loop of `simulate_trade` (lines 107–152) for one
merged event: devig the Pinnacle pair, evaluate the YES side against the
devigged away probability and the NO side against the devigged home
probability (in that order, matching the append order of `trades`), then
keep the best candidate.  Returns the list appended to `trade_log` for this
event; `none` is a propagated exception. -/
def evalEvent (yes_prob no_prob home_prob away_prob : ℚ) : Option (List Trade) := do
  let p ← devig home_prob away_prob
  let oYes ← evalSide Side.yes p.2 yes_prob
  let oNo ← evalSide Side.no p.1 no_prob
  pure (pickBest (oYes.toList ++ oNo.toList))

end ArbV2

section V1Claims

open ArbV1

/-- The combined-rule flag of `detect_arbitrage` can never fire on genuine
probability inputs: for costs in `(0, 1]` each reciprocal is at least `1`,
so their sum is at least `2`, never below `1 + 0.02`. -/
theorem arbV1_flag_unsatisfiable (p q : ℚ) (hp : 0 < p) (hp1 : p ≤ 1)
    (hq : 0 < q) (hq1 : q ≤ 1) : ¬ arb_away p q := by
  unfold arb_away tolerance
  have h1 : (1 : ℚ) ≤ 1 / p := (le_div_iff₀ hp).mpr (by linarith)
  have h2 : (1 : ℚ) ≤ 1 / q := (le_div_iff₀ hq).mpr (by linarith)
  intro h
  linarith

/-- C1: on the claim's concrete boundary example (`cost_home = 0.48`,
`cost_away = 0.50`) the claimed rule `cost_home + cost_away < 1 + 0` holds
with claimed profit `0.02`, but the code's `arb_away` column computes
`1/0.48 + 1/0.50 ≈ 4.083 < 1.02`, which is false — no arbitrage is flagged —
and its profit column evaluates to `-37/12`, not `0.02`. -/
theorem c1_combined_rule_failing_input :
    ((12/25 : ℚ) + 1/2 < 1 + 0 ∧ 1 - ((12/25 : ℚ) + 1/2) = 2/100)
    ∧ ¬ ArbV1.arb_away (12/25) (1/2)
    ∧ ArbV1.arb_profit_away (12/25) (1/2) = -(37/12) := by
  refine ⟨⟨by norm_num, by norm_num⟩, ?_, ?_⟩
  · unfold ArbV1.arb_away ArbV1.tolerance
    norm_num
  · unfold ArbV1.arb_profit_away
    norm_num

end V1Claims

section V2Claims

open ArbV2

/-- C2: at `p_true = 0.52`, `p_price = 0.45`, `shrinkage = 0.2`, the code's
`kelly_fraction` — which plugs the raw price into the odds slot — returns
`383/1375 ≈ 0.2785`, while the spec's formula with `b = 1/p_price` yields
`7/275 ≈ 0.0255`; the two disagree. -/
theorem c2_kelly_failing_input :
    kelly_fraction (13/25) (9/20) (1/5) = some (383/1375)
    ∧ kellySpec (13/25) (9/20) (1/5) = 7/275
    ∧ (383/1375 : ℚ) ≠ 7/275 := by
  refine ⟨?_, ?_, by norm_num⟩
  · unfold kelly_fraction
    rw [if_neg (by norm_num)]
    have h : (1/5 : ℚ) * ((9/20 * (13/25) - 1) / (9/20 - 1)) = 383/1375 := by norm_num
    rw [h, max_eq_right (by norm_num)]
  · unfold kellySpec
    rw [if_neg (by norm_num)]
    have h : (1/5 : ℚ) * ((1 / (9/20) * (13/25) - 1) / (1 / (9/20) - 1)) = 7/275 := by
      norm_num
    rw [h, max_eq_right (by norm_num)]

/-- C3: at acquisition cost `1.0` the code's `kelly_fraction` divides by
`kalshi_odds - 1 = 0` with no guard — a `ZeroDivisionError` (embedded as
`none`), not the no-bet result `some 0` the spec requires. -/
theorem c3_kelly_degenerate_unguarded :
    kelly_fraction (1/2) 1 (1/5) = none
    ∧ kelly_fraction (1/2) 1 (1/5) ≠ some 0 := by
  constructor
  · unfold kelly_fraction
    rw [if_pos (by norm_num)]
  · unfold kelly_fraction
    rw [if_pos (by norm_num)]
    exact fun h => Option.noConfusion h

end V2Claims

namespace ArbV2

/-- On positive inputs `devig` returns the proportionally normalized pair. -/
theorem devig_pos (h a : ℚ) (hh : 0 < h) (ha : 0 < a) :
    devig h a = some (h / (h + a), a / (h + a)) := by
  have hr : (0 : ℚ) < h + a := by linarith
  unfold devig
  rw [if_neg (ne_of_gt hr)]

/-- When the ask differs from `1`, `kelly_fraction` does not raise and
returns the clamped shrunk Kelly value. -/
theorem kelly_fraction_of_ne_one (p q s : ℚ) (hq : q ≠ 1) :
    kelly_fraction p q s = some (max 0 (s * ((q * p - 1) / (q - 1)))) := by
  unfold kelly_fraction
  rw [if_neg (sub_ne_zero.mpr hq)]

/-- The side-evaluation block appends nothing when the fee-inclusive cost is
not below the fair probability. -/
theorem evalSide_not_flagged (s : Side) (fair ask : ℚ)
    (h : ¬ ask * (1 + kalshi_fee) < fair) :
    evalSide s fair ask = some none := by
  unfold evalSide
  rw [if_neg h]

/-- A flagged side has an ask strictly below `1` (so its `kelly_fraction`
call cannot divide by zero). -/
theorem ask_lt_one_of_flagged (fair ask : ℚ) (hf : fair ≤ 1)
    (h : ask * (1 + kalshi_fee) < fair) : ask < 1 := by
  unfold kalshi_fee at h
  nlinarith

/-- The trade record built by a flagged side-evaluation block. -/
def flaggedTrade (s : Side) (fair ask : ℚ) : Trade :=
  ⟨s, ask * (1 + kalshi_fee), fair, fair - ask * (1 + kalshi_fee),
   max 0 (fractional_kelly * ((ask * fair - 1) / (ask - 1))),
   max 0 (fractional_kelly * ((ask * fair - 1) / (ask - 1))) * bankroll,
   max 0 (fractional_kelly * ((ask * fair - 1) / (ask - 1))) * bankroll *
     (fair - ask * (1 + kalshi_fee))⟩

/-- The side-evaluation block appends exactly `flaggedTrade` when the
fee-inclusive cost is below the fair probability (for a fair probability at
most `1`, as produced by `devig`). -/
theorem evalSide_flagged (s : Side) (fair ask : ℚ) (hf : fair ≤ 1)
    (h : ask * (1 + kalshi_fee) < fair) :
    evalSide s fair ask = some (some (flaggedTrade s fair ask)) := by
  have hlt : ask < 1 := ask_lt_one_of_flagged fair ask hf h
  unfold evalSide
  rw [if_pos h, kelly_fraction_of_ne_one fair ask fractional_kelly (ne_of_lt hlt)]
  rfl

end ArbV2

section V2Claims2

open ArbV2

/-- C4: the single-sided rule of `simulate_trade` flags a side exactly when
the fee-inclusive Kalshi cost is strictly below the devigged fair
probability for that side, and the recorded edge is
`fair_probability - cost`. -/
theorem c4_single_sided_rule (s : Side) (fair ask : ℚ) (hf : fair ≤ 1) :
    ((∃ t, evalSide s fair ask = some (some t)) ↔ ask * (1 + kalshi_fee) < fair)
    ∧ ∀ t, evalSide s fair ask = some (some t) →
        t.edge = fair - ask * (1 + kalshi_fee) := by
  constructor
  · constructor
    · rintro ⟨t, ht⟩
      by_contra h
      rw [evalSide_not_flagged s fair ask h] at ht
      exact Option.noConfusion (Option.some.inj ht)
    · intro h
      exact ⟨flaggedTrade s fair ask, evalSide_flagged s fair ask hf h⟩
  · intro t ht
    by_cases h : ask * (1 + kalshi_fee) < fair
    · rw [evalSide_flagged s fair ask hf h] at ht
      rw [← Option.some.inj (Option.some.inj ht)]
      rfl
    · rw [evalSide_not_flagged s fair ask h] at ht
      exact Option.noConfusion (Option.some.inj ht)

/-- Witness for C4: the spec's concrete example — post-fee ask `0.45`
(raw ask `450/1003`) against devigged fair probability `0.52` is flagged
with edge exactly `0.07`. -/
theorem c4_witness :
    ∃ t, evalSide Side.yes (13/25) (450/1003) = some (some t) ∧ t.edge = 7/100 := by
  have h := c4_single_sided_rule Side.yes (13/25) (450/1003) (by norm_num)
  have hcost : (450/1003 : ℚ) * (1 + kalshi_fee) < 13/25 := by
    unfold ArbV2.kalshi_fee
    norm_num
  obtain ⟨t, ht⟩ := h.1.mpr hcost
  refine ⟨t, ht, ?_⟩
  rw [h.2 t ht]
  unfold ArbV2.kalshi_fee
  norm_num

/-- C5: on positive raw inputs `devig` returns exactly the proportional
normalization `(h/r, a/r)` with `r = h + a`; the outputs sum to `1`
exactly (hence within `1e-9`), both lie in `(0,1)`, and their ratio equals
the ratio of the raw inputs. -/
theorem c5_devig_normalization (h a : ℚ) (hh : 0 < h) (ha : 0 < a) :
    devig h a = some (h / (h + a), a / (h + a))
    ∧ h / (h + a) + a / (h + a) = 1
    ∧ (0 < h / (h + a) ∧ h / (h + a) < 1)
    ∧ (0 < a / (h + a) ∧ a / (h + a) < 1)
    ∧ h / (h + a) / (a / (h + a)) = h / a := by
  have hr : (0 : ℚ) < h + a := by linarith
  refine ⟨devig_pos h a hh ha, ?_, ⟨div_pos hh hr, ?_⟩, ⟨div_pos ha hr, ?_⟩, ?_⟩
  · field_simp
  · rw [div_lt_one hr]; linarith
  · rw [div_lt_one hr]; linarith
  · have ha' : a ≠ 0 := ne_of_gt ha
    have hr' : h + a ≠ 0 := ne_of_gt hr
    field_simp

/-- Witness for C5: the no-vig pair `(0.5, 0.5)` devigs to itself. -/
theorem c5_witness : devig (1/2) (1/2) = some ((1/2) / (1/2 + 1/2), (1/2) / (1/2 + 1/2)) :=
  (c5_devig_normalization (1/2) (1/2) (by norm_num) (by norm_num)).1

/-- C6 counterexample: `devig` does not fail on a non-positive raw
probability — at `(-0.3, 0.5)` it silently returns the out-of-range pair
`(-1.5, 2.5)` instead of signaling `InvalidProbability`. -/
theorem c6_counterexample :
    ((-3/10 : ℚ) ≤ 0) ∧ devig (-3/10) (1/2) = some (-(3/2), 5/2) := by
  refine ⟨by norm_num, ?_⟩
  unfold ArbV2.devig
  rw [if_neg (by norm_num)]
  norm_num

/-- C6 amended: `devig` performs no input validation at all — for an invalid
input (a non-positive raw probability) it fails only when the denominator
`r = p_home_raw + p_away_raw` is exactly `0` (a `ZeroDivisionError`, not an
`InvalidProbability` signal), and for every other invalid input it silently
returns `(p_home_raw / r, p_away_raw / r)`. -/
theorem c6_amended_no_validation (h a : ℚ) (_hinv : h ≤ 0 ∨ a ≤ 0) :
    (h + a = 0 → devig h a = none)
    ∧ (h + a ≠ 0 → devig h a = some (h / (h + a), a / (h + a))) := by
  constructor
  · intro hr
    unfold ArbV2.devig
    rw [if_pos hr]
  · intro hr
    unfold ArbV2.devig
    rw [if_neg hr]

/-- Witness for C6's amended statement at the invalid input `(-0.5, 0.25)`:
the value `(2, -1)` is returned with no error. -/
theorem c6_witness : devig (-1/2) (1/4) = some (2, -1) := by
  have h := (c6_amended_no_validation (-1/2) (1/4) (Or.inl (by norm_num))).2 (by norm_num)
  rw [h]
  norm_num

/-- C8: whenever the code's `kelly_fraction` returns a stake fraction (it
does not raise), that fraction is non-negative, thanks to the `max(0, ...)`
clamp. -/
theorem c8_stake_fraction_nonneg (p q s f : ℚ)
    (h : kelly_fraction p q s = some f) : 0 ≤ f := by
  unfold ArbV2.kelly_fraction at h
  by_cases hq : q - 1 = 0
  · rw [if_pos hq] at h
    exact Option.noConfusion h
  · rw [if_neg hq, Option.some.injEq] at h
    rw [← h]
    exact le_max_left _ _

/-- Witness for C8: at `p_true = 0.5`, price `0.5`, shrinkage `0.2` the
returned stake fraction `0.3` is non-negative. -/
theorem c8_witness : (0 : ℚ) ≤ 3/10 := by
  refine c8_stake_fraction_nonneg (1/2) (1/2) (1/5) (3/10) ?_
  unfold ArbV2.kelly_fraction
  rw [if_neg (by norm_num)]
  have h : (1/5 : ℚ) * ((1/2 * (1/2) - 1) / (1/2 - 1)) = 3/10 := by norm_num
  rw [h, max_eq_right (by norm_num)]

end V2Claims2

namespace ArbV2

/-- Edge field of a flagged trade. -/
theorem flaggedTrade_edge (s : Side) (fair ask : ℚ) :
    (flaggedTrade s fair ask).edge = fair - ask * (1 + kalshi_fee) := rfl

/-- Side field of a flagged trade. -/
theorem flaggedTrade_side (s : Side) (fair ask : ℚ) :
    (flaggedTrade s fair ask).side = s := rfl

/-- Kelly-fraction field of a flagged trade. -/
theorem flaggedTrade_kf (s : Side) (fair ask : ℚ) :
    (flaggedTrade s fair ask).kelly_fraction =
      max 0 (fractional_kelly * ((ask * fair - 1) / (ask - 1))) := rfl

/-- Bet-size field of a flagged trade. -/
theorem flaggedTrade_bet (s : Side) (fair ask : ℚ) :
    (flaggedTrade s fair ask).bet_size =
      (flaggedTrade s fair ask).kelly_fraction * bankroll := rfl

/-- Profit field of a flagged trade. -/
theorem flaggedTrade_profit (s : Side) (fair ask : ℚ) :
    (flaggedTrade s fair ask).profit =
      (flaggedTrade s fair ask).bet_size * (flaggedTrade s fair ask).edge := rfl

/-- A flagged trade has positive edge, non-negative Kelly fraction,
bet size, and profit. -/
theorem flaggedTrade_props (s : Side) (fair ask : ℚ)
    (h : ask * (1 + kalshi_fee) < fair) :
    0 < (flaggedTrade s fair ask).edge
    ∧ 0 ≤ (flaggedTrade s fair ask).kelly_fraction
    ∧ 0 ≤ (flaggedTrade s fair ask).bet_size
    ∧ 0 ≤ (flaggedTrade s fair ask).profit := by
  have hedge : 0 < (flaggedTrade s fair ask).edge := by
    rw [flaggedTrade_edge]; linarith
  have hk : 0 ≤ (flaggedTrade s fair ask).kelly_fraction := by
    rw [flaggedTrade_kf]; exact le_max_left _ _
  have hb : (0 : ℚ) ≤ bankroll := by unfold bankroll; norm_num
  have hbet : 0 ≤ (flaggedTrade s fair ask).bet_size := by
    rw [flaggedTrade_bet]; exact mul_nonneg hk hb
  refine ⟨hedge, hk, hbet, ?_⟩
  rw [flaggedTrade_profit]
  exact mul_nonneg hbet hedge.le

/-- Closed form of the per-event loop body on positive Pinnacle inputs:
devig succeeds, each side contributes its flagged trade exactly when its
cost beats the corresponding devigged probability, and the best candidate
is kept. -/
theorem evalEvent_eq (yp np hp ap : ℚ) (hhp : 0 < hp) (hap : 0 < ap) :
    evalEvent yp np hp ap = some (pickBest (
      (if yp * (1 + kalshi_fee) < ap / (hp + ap)
       then [flaggedTrade Side.yes (ap / (hp + ap)) yp] else []) ++
      (if np * (1 + kalshi_fee) < hp / (hp + ap)
       then [flaggedTrade Side.no (hp / (hp + ap)) np] else []))) := by
  have hr : (0 : ℚ) < hp + ap := by linarith
  have hd1 : hp / (hp + ap) ≤ 1 := by
    rw [div_le_one hr]; linarith
  have hd2 : ap / (hp + ap) ≤ 1 := by
    rw [div_le_one hr]; linarith
  unfold evalEvent
  rw [devig_pos hp ap hhp hap]
  simp only [Option.bind_eq_bind, Option.some_bind]
  by_cases h1 : yp * (1 + kalshi_fee) < ap / (hp + ap)
  <;> by_cases h2 : np * (1 + kalshi_fee) < hp / (hp + ap)
  · rw [if_pos h1, if_pos h2,
      evalSide_flagged Side.yes (ap / (hp + ap)) yp hd2 h1]
    simp only [Option.some_bind]
    rw [evalSide_flagged Side.no (hp / (hp + ap)) np hd1 h2]
    rfl
  · rw [if_pos h1, if_neg h2,
      evalSide_flagged Side.yes (ap / (hp + ap)) yp hd2 h1]
    simp only [Option.some_bind]
    rw [evalSide_not_flagged Side.no (hp / (hp + ap)) np h2]
    rfl
  · rw [if_neg h1, if_pos h2,
      evalSide_not_flagged Side.yes (ap / (hp + ap)) yp h1]
    simp only [Option.some_bind]
    rw [evalSide_flagged Side.no (hp / (hp + ap)) np hd1 h2]
    rfl
  · rw [if_neg h1, if_neg h2,
      evalSide_not_flagged Side.yes (ap / (hp + ap)) yp h1]
    simp only [Option.some_bind]
    rw [evalSide_not_flagged Side.no (hp / (hp + ap)) np h2]
    rfl

end ArbV2

section V2Claims3

open ArbV2

/-- C7: when both sides of an event beat their devigged counterparty
probabilities and the two edges differ, the per-event loop body logs exactly
one trade, whose edge is the larger of the two, taken from the side that
attains it; and the evaluation, being a pure function, returns the same
result on every repeated call. -/
theorem c7_pick_larger_edge (yp np hp ap : ℚ) (hhp : 0 < hp) (hap : 0 < ap)
    (hyes : yp * (1 + kalshi_fee) < ap / (hp + ap))
    (hno : np * (1 + kalshi_fee) < hp / (hp + ap))
    (_hne : ap / (hp + ap) - yp * (1 + kalshi_fee) ≠
           hp / (hp + ap) - np * (1 + kalshi_fee)) :
    ∃ t, evalEvent yp np hp ap = some [t]
      ∧ t.edge = max (ap / (hp + ap) - yp * (1 + kalshi_fee))
                     (hp / (hp + ap) - np * (1 + kalshi_fee))
      ∧ (hp / (hp + ap) - np * (1 + kalshi_fee) <
           ap / (hp + ap) - yp * (1 + kalshi_fee) → t.side = Side.yes)
      ∧ (ap / (hp + ap) - yp * (1 + kalshi_fee) <
           hp / (hp + ap) - np * (1 + kalshi_fee) → t.side = Side.no)
      ∧ evalEvent yp np hp ap = evalEvent yp np hp ap := by
  have he := evalEvent_eq yp np hp ap hhp hap
  rw [if_pos hyes, if_pos hno] at he
  have hred : pickBest ([flaggedTrade Side.yes (ap / (hp + ap)) yp] ++
      [flaggedTrade Side.no (hp / (hp + ap)) np]) =
      [if (flaggedTrade Side.yes (ap / (hp + ap)) yp).edge <
          (flaggedTrade Side.no (hp / (hp + ap)) np).edge
       then flaggedTrade Side.no (hp / (hp + ap)) np
       else flaggedTrade Side.yes (ap / (hp + ap)) yp] := rfl
  rw [hred] at he
  by_cases hc : (flaggedTrade Side.yes (ap / (hp + ap)) yp).edge <
      (flaggedTrade Side.no (hp / (hp + ap)) np).edge
  · rw [if_pos hc] at he
    rw [flaggedTrade_edge, flaggedTrade_edge] at hc
    refine ⟨_, he, ?_, ?_, ?_, rfl⟩
    · rw [flaggedTrade_edge]
      exact (max_eq_right hc.le).symm
    · intro hlt
      exact absurd hc (not_lt.mpr hlt.le)
    · intro _
      exact flaggedTrade_side Side.no (hp / (hp + ap)) np
  · rw [if_neg hc] at he
    rw [flaggedTrade_edge, flaggedTrade_edge] at hc
    refine ⟨_, he, ?_, ?_, ?_, rfl⟩
    · rw [flaggedTrade_edge]
      exact (max_eq_left (not_lt.mp hc)).symm
    · intro _
      exact flaggedTrade_side Side.yes (ap / (hp + ap)) yp
    · intro hlt
      exact absurd hlt (not_lt.mpr (not_lt.mp hc))

/-- Witness for C7: a concrete event where both sides are flagged with
distinct positive edges (`0.2994` for YES, `0.1991` for NO); exactly the
YES trade, with the larger edge, is logged. -/
theorem c7_witness :
    ∃ t, evalEvent (1/5) (3/10) (1/2) (1/2) = some [t]
      ∧ t.edge = 1497/5000 ∧ t.side = Side.yes := by
  have hyes : (1/5 : ℚ) * (1 + kalshi_fee) < (1/2) / ((1/2) + (1/2)) := by
    unfold ArbV2.kalshi_fee; norm_num
  have hno : (3/10 : ℚ) * (1 + kalshi_fee) < (1/2) / ((1/2) + (1/2)) := by
    unfold ArbV2.kalshi_fee; norm_num
  obtain ⟨t, ht, hedge, hside, _, _⟩ :=
    c7_pick_larger_edge (1/5) (3/10) (1/2) (1/2) (by norm_num) (by norm_num)
      hyes hno (by unfold ArbV2.kalshi_fee; norm_num)
  refine ⟨t, ht, ?_, ?_⟩
  · rw [hedge, max_eq_left (by unfold ArbV2.kalshi_fee; norm_num)]
    unfold ArbV2.kalshi_fee
    norm_num
  · exact hside (by unfold ArbV2.kalshi_fee; norm_num)

/-- C9: on any merged event with positive Pinnacle implied probabilities,
the loop body of `simulate_trade` raises no error and contributes at most
one trade to the log, and every contributed trade has strictly positive
edge, non-negative Kelly fraction, non-negative bet size, and non-negative
profit. -/
theorem c9_trade_log_invariants (yp np hp ap : ℚ) (hhp : 0 < hp) (hap : 0 < ap) :
    ∃ l, evalEvent yp np hp ap = some l ∧ l.length ≤ 1
      ∧ ∀ t ∈ l, 0 < t.edge ∧ 0 ≤ t.kelly_fraction
                 ∧ 0 ≤ t.bet_size ∧ 0 ≤ t.profit := by
  have he := evalEvent_eq yp np hp ap hhp hap
  by_cases h1 : yp * (1 + kalshi_fee) < ap / (hp + ap)
  <;> by_cases h2 : np * (1 + kalshi_fee) < hp / (hp + ap)
  · rw [if_pos h1, if_pos h2] at he
    have hred : pickBest ([flaggedTrade Side.yes (ap / (hp + ap)) yp] ++
        [flaggedTrade Side.no (hp / (hp + ap)) np]) =
        [if (flaggedTrade Side.yes (ap / (hp + ap)) yp).edge <
            (flaggedTrade Side.no (hp / (hp + ap)) np).edge
         then flaggedTrade Side.no (hp / (hp + ap)) np
         else flaggedTrade Side.yes (ap / (hp + ap)) yp] := rfl
    rw [hred] at he
    refine ⟨_, he, by simp, ?_⟩
    intro t ht
    rw [List.mem_singleton] at ht
    subst ht
    by_cases hc : (flaggedTrade Side.yes (ap / (hp + ap)) yp).edge <
        (flaggedTrade Side.no (hp / (hp + ap)) np).edge
    · rw [if_pos hc]
      exact flaggedTrade_props Side.no (hp / (hp + ap)) np h2
    · rw [if_neg hc]
      exact flaggedTrade_props Side.yes (ap / (hp + ap)) yp h1
  · rw [if_pos h1, if_neg h2] at he
    have hred : pickBest ([flaggedTrade Side.yes (ap / (hp + ap)) yp] ++ []) =
        [flaggedTrade Side.yes (ap / (hp + ap)) yp] := rfl
    rw [hred] at he
    refine ⟨_, he, by simp, ?_⟩
    intro t ht
    rw [List.mem_singleton] at ht
    subst ht
    exact flaggedTrade_props Side.yes (ap / (hp + ap)) yp h1
  · rw [if_neg h1, if_pos h2] at he
    have hred : pickBest (([] : List Trade) ++
        [flaggedTrade Side.no (hp / (hp + ap)) np]) =
        [flaggedTrade Side.no (hp / (hp + ap)) np] := rfl
    rw [hred] at he
    refine ⟨_, he, by simp, ?_⟩
    intro t ht
    rw [List.mem_singleton] at ht
    subst ht
    exact flaggedTrade_props Side.no (hp / (hp + ap)) np h2
  · rw [if_neg h1, if_neg h2] at he
    exact ⟨[], he, by simp, by simp⟩

/-- Witness for C9: a concrete event whose evaluation logs a single trade
satisfying all the invariants. -/
theorem c9_witness :
    ∃ l, evalEvent (1/5) (3/10) (1/2) (1/2) = some l ∧ l.length ≤ 1
      ∧ ∀ t ∈ l, 0 < t.edge ∧ 0 ≤ t.kelly_fraction
                 ∧ 0 ≤ t.bet_size ∧ 0 ≤ t.profit :=
  c9_trade_log_invariants (1/5) (3/10) (1/2) (1/2) (by norm_num) (by norm_num)

/-- C10: when both sides are flagged with exactly equal edges, the logged
trade is the YES-side candidate — it is appended first, and Python's `max`
keeps the first maximal element — and its edge is positive. -/
theorem c10_tie_selects_yes (yp np hp ap : ℚ) (hhp : 0 < hp) (hap : 0 < ap)
    (hyes : yp * (1 + kalshi_fee) < ap / (hp + ap))
    (hno : np * (1 + kalshi_fee) < hp / (hp + ap))
    (heq : ap / (hp + ap) - yp * (1 + kalshi_fee) =
           hp / (hp + ap) - np * (1 + kalshi_fee)) :
    evalEvent yp np hp ap = some [flaggedTrade Side.yes (ap / (hp + ap)) yp]
    ∧ (flaggedTrade Side.yes (ap / (hp + ap)) yp).side = Side.yes
    ∧ 0 < (flaggedTrade Side.yes (ap / (hp + ap)) yp).edge := by
  have he := evalEvent_eq yp np hp ap hhp hap
  rw [if_pos hyes, if_pos hno] at he
  have hred : pickBest ([flaggedTrade Side.yes (ap / (hp + ap)) yp] ++
      [flaggedTrade Side.no (hp / (hp + ap)) np]) =
      [if (flaggedTrade Side.yes (ap / (hp + ap)) yp).edge <
          (flaggedTrade Side.no (hp / (hp + ap)) np).edge
       then flaggedTrade Side.no (hp / (hp + ap)) np
       else flaggedTrade Side.yes (ap / (hp + ap)) yp] := rfl
  rw [hred] at he
  have hnlt : ¬ (flaggedTrade Side.yes (ap / (hp + ap)) yp).edge <
      (flaggedTrade Side.no (hp / (hp + ap)) np).edge := by
    rw [flaggedTrade_edge, flaggedTrade_edge, heq]
    exact lt_irrefl _
  rw [if_neg hnlt] at he
  refine ⟨he, rfl, ?_⟩
  rw [flaggedTrade_edge]
  linarith

/-- Witness for C10: a concrete event where both sides have the same
positive edge `0.0988`; the YES-side trade is the one logged. -/
theorem c10_witness :
    evalEvent (2/5) (2/5) (1/2) (1/2) =
      some [flaggedTrade Side.yes ((1/2) / ((1/2) + (1/2))) (2/5)] :=
  (c10_tie_selects_yes (2/5) (2/5) (1/2) (1/2) (by norm_num) (by norm_num)
    (by unfold ArbV2.kalshi_fee; norm_num)
    (by unfold ArbV2.kalshi_fee; norm_num) rfl).1

end V2Claims3
